import Mathlib

/-!
# Verification of the Reactive-Resume document-ingestion pipeline

Shallow embedding of the resume import pipeline:

* `ParserService.parse` — the heuristic field parser (src/unnamed/part_001);
* `ResumeService.importFromFile` and `ResumeService.ocrPdfBuffer` — the
  extraction orchestrator and PDF-to-OCR fallback
  (src/apps/server/src/resume/resume.service.ts);
* `OcrService.recognizeImageBuffer` (src/apps/server/src/resume/ocr.service.ts);
* `ResumeController.importFile` — the upload endpoint (src/unnamed/part_000).

JavaScript strings are modelled as Lean `String`s (lists of characters);
`String.prototype.trim`, `split`, `toLowerCase` and the regular expressions used
by the source are translated into executable Lean functions below.  External
effects (the pdf-parse library, the pdf2pic rasterizer, the Tesseract OCR
backend, mammoth, the database) are modelled as oracles carried by an
environment record, so that each code path of the orchestrator is a pure
function of that environment.
-/

namespace ReactiveResume

/-- JS whitespace (the set matched by `\s` and stripped by
`String.prototype.trim`): TAB, LF, VT, FF, CR, space, NBSP, and the Unicode
space separators, line/paragraph separators and BOM. -/
def jsIsSpace (c : Char) : Bool :=
  let n := c.toNat
  n == 9 || n == 10 || n == 11 || n == 12 || n == 13 || n == 32 || n == 160 ||
    n == 5760 || (decide (8192 ≤ n) && decide (n ≤ 8202)) || n == 8232 ||
    n == 8233 || n == 8239 || n == 8287 || n == 12288 || n == 65279

/-- `String.prototype.trim` over the character list: drop whitespace from both
ends. -/
def trimChars (cs : List Char) : List Char :=
  ((cs.dropWhile jsIsSpace).reverse.dropWhile jsIsSpace).reverse

/-- `String.prototype.trim`. -/
def jsTrim (s : String) : String := ⟨trimChars s.data⟩

/-- ASCII lower-casing of one character.  Models `String.prototype.toLowerCase`;
the source only compares the lower-cased string against ASCII keywords. -/
def asciiLowerChar (c : Char) : Char :=
  if 65 ≤ c.toNat ∧ c.toNat ≤ 90 then Char.ofNat (c.toNat + 32) else c

/-- `String.prototype.toLowerCase` (ASCII fragment). -/
def asciiLower (s : String) : String := ⟨s.data.map asciiLowerChar⟩

/-- Does the first list start with the second? -/
def startsWithL : List Char → List Char → Bool
  | _, [] => true
  | [], _ :: _ => false
  | c :: cs, p :: ps => c == p && startsWithL cs ps

/-- JS `String.prototype.includes`: some suffix of the haystack starts with the
pattern. -/
def containsL : List Char → List Char → Bool
  | [], pat => pat.isEmpty
  | c :: rest, pat => startsWithL (c :: rest) pat || containsL rest pat

/-- `String` wrapper for `startsWithL`; models JS `startsWith` and anchored
`/^pat/` tests. -/
def startsWithStr (s pat : String) : Bool := startsWithL s.data pat.data

/-- `String` wrapper for `containsL`. -/
def containsStr (s pat : String) : Bool := containsL s.data pat.data

/-- JS `split(/\r?\n/)` (parser line 24): a separator is `\r\n` or a bare `\n`;
a lone `\r` is ordinary content.  Empty segments are kept, as JS `split` keeps
them. -/
def splitLinesAux : List Char → List Char → List (List Char)
  | [], acc => [acc.reverse]
  | '\r' :: '\n' :: rest, acc => acc.reverse :: splitLinesAux rest []
  | '\n' :: rest, acc => acc.reverse :: splitLinesAux rest []
  | c :: rest, acc => splitLinesAux rest (c :: acc)

/-- JS `s.split(/\r?\n/)`. -/
def jsSplitLines (s : String) : List String := (splitLinesAux s.data []).map String.mk

/-- JS `split` on a single-character class regex: split at every matching
character, keeping empty segments. -/
def splitClassAux (p : Char → Bool) : List Char → List Char → List (List Char)
  | [], acc => [acc.reverse]
  | c :: rest, acc =>
    if p c then acc.reverse :: splitClassAux p rest []
    else splitClassAux p rest (c :: acc)

/-- JS `s.split(class)` for a single-character class. -/
def jsSplitClass (p : Char → Bool) (s : String) : List String :=
  (splitClassAux p s.data []).map String.mk

/-- JS `split(/\s+/)` (parser line 28): a separator is a maximal run of
whitespace; `inSep` records whether the previous character belonged to the
separator run currently being consumed. -/
def splitWsAux : List Char → List Char → Bool → List (List Char)
  | [], acc, _ => [acc.reverse]
  | c :: rest, acc, inSep =>
    if jsIsSpace c then
      if inSep then splitWsAux rest acc true
      else acc.reverse :: splitWsAux rest [] true
    else splitWsAux rest (c :: acc) false

/-- JS `s.split(/\s+/)`. -/
def jsSplitWs (s : String) : List String := (splitWsAux s.data [] false).map String.mk

/-- JS `Array.prototype.join(sep)`. -/
def jsJoin (sep : String) : List String → String
  | [] => ""
  | [s] => s
  | s :: t :: rest => s ++ sep ++ jsJoin sep (t :: rest)

/-! ## The `ParsedResume` data model (src/unnamed/part_001 lines 3-11) -/

/-- One entry of `ParsedResume.experience`. -/
structure ExperienceEntry where
  title : Option String
  company : Option String
  dateRange : Option String
  description : Option String
deriving DecidableEq, Repr

/-- One entry of `ParsedResume.education`. -/
structure EducationEntry where
  degree : Option String
  institution : Option String
  dateRange : Option String
deriving DecidableEq, Repr

/-- The parser's result record. -/
structure ParsedResume where
  name : Option String
  email : Option String
  phone : Option String
  skills : List String
  experience : List ExperienceEntry
  education : List EducationEntry
  raw : String
deriving DecidableEq, Repr

/-! ## The regular expressions of `ParserService.parse` -/

/-- Local-part class of the email regex `[a-zA-Z0-9._%+-]+@[a-zA-Z0-9.-]+\.[a-zA-Z]{2,}`. -/
def emailLocalChar (c : Char) : Bool :=
  c.isAlpha || c.isDigit || c == '.' || c == '_' || c == '%' || c == '+' || c == '-'

/-- Domain class of the email regex. -/
def emailDomainChar (c : Char) : Bool :=
  c.isAlpha || c.isDigit || c == '.' || c == '-'

/-- One anchored attempt of the email regex at the start of `cs`.  The greedy
`[...]+` of the local part must stop exactly at an `@` (every shorter extent is
followed by another local character, so backtracking cannot help); the greedy
domain `[...]+` backtracks from its longest extent down to length 1 looking for
the final `\.[a-zA-Z]{2,}`, which is itself greedy with nothing after it. -/
def emailAt (cs : List Char) : Option (List Char) :=
  let loc := cs.takeWhile emailLocalChar
  if loc.isEmpty then none
  else
    match cs.drop loc.length with
    | '@' :: rest =>
      let dom := rest.takeWhile emailDomainChar
      (List.range dom.length).reverse.findSome? (fun k0 =>
        let k := k0 + 1
        match rest.drop k with
        | '.' :: rest2 =>
          let tld := rest2.takeWhile Char.isAlpha
          if 2 ≤ tld.length then some (loc ++ '@' :: (rest.take k ++ '.' :: tld))
          else none
        | _ => none)
    | _ => none

/-- One anchored attempt of the phone regex `\+?[0-9]{7,15}`: the optional `+`
is tried first; the bounded repetition greedily takes up to 15 digits and needs
at least 7. -/
def phoneAt (cs : List Char) : Option (List Char) :=
  match cs with
  | '+' :: rest =>
    let ds := rest.takeWhile Char.isDigit
    if 7 ≤ ds.length then some ('+' :: ds.take 15) else none
  | _ =>
    let ds := cs.takeWhile Char.isDigit
    if 7 ≤ ds.length then some (ds.take 15) else none

/-- Leftmost match: JS `String.prototype.match` attempts the pattern at each
start position from the left and returns the first success. -/
def firstMatchAux (f : List Char → Option (List Char)) : List Char → Option (List Char)
  | [] => f []
  | c :: rest => f (c :: rest) <|> firstMatchAux f rest

/-- The character class of the name regex `^[A-Za-z ,.'-]{2,80}$`
(parser line 28): ASCII letters, space, comma, period, apostrophe, hyphen. -/
def nameChar (c : Char) : Bool :=
  c.isAlpha || c == ' ' || c == ',' || c == '.' || c == '\'' || c == '-'

/-- `/^[A-Za-z ,.'-]{2,80}$/.test candidate`: the anchored bounded repetition of
a character class holds exactly when every character is in the class and the
total length lies between 2 and 80. -/
def nameRegexTest (c : String) : Bool :=
  c.data.all nameChar && decide (2 ≤ c.data.length) && decide (c.data.length ≤ 80)

/-- First split class of the skills line (parser line 35): `[:\-–]|\n` — colon,
hyphen, EN dash U+2013 (the em dash U+2014 is NOT in this class) or newline. -/
def skillSplitChar1 (c : Char) : Bool :=
  c == ':' || c == '-' || c.toNat == 0x2013 || c == '\n'

/-- Second split class of the skills line: `[;,|•·]` — semicolon, comma, pipe,
bullet U+2022, middle dot U+00B7. -/
def skillSplitChar2 (c : Char) : Bool :=
  c == ';' || c == ',' || c == '|' || c.toNat == 0x2022 || c.toNat == 0xb7

/-- `/^skills?/i.test(line) || line.toLowerCase().includes("skill")`
(parser line 34).  The anchored `/^skills?/i` succeeds iff the lower-cased line
starts with `skill`. -/
def skillLineTest (line : String) : Bool :=
  startsWithStr (asciiLower line) "skill" || containsStr (asciiLower line) "skill"

/-- Parser line 35: split the line on `[:\-–]|\n`, drop the first segment, join
the rest with a space, split on `[;,|•·]`, trim every token and drop the empty
ones. -/
def skillsParts (line : String) : List String :=
  let parts := jsJoin " " ((jsSplitClass skillSplitChar1 line).drop 1)
  ((jsSplitClass skillSplitChar2 parts).map jsTrim).filter (fun s => s != "")

/-- The `for ... break` scan of parser lines 33-39, applied to
`lines.slice(0, 30)`: stop at the first line passing `skillLineTest`. -/
def skillsScan : List String → List String
  | [] => []
  | line :: rest => if skillLineTest line then skillsParts line else skillsScan rest

/-! ## The experience/education section machine -/

/-- The `currentSection` values (parser line 45). -/
inductive Sec
  | experience
  | education
deriving DecidableEq, Repr

/-- `/^experience/i.test(line) || /^work experience/i.test(line)` (line 47). -/
def headerExperience (line : String) : Bool :=
  startsWithStr (asciiLower line) "experience" ||
    startsWithStr (asciiLower line) "work experience"

/-- `/^education/i.test(line) || /degree|university|bachelor|master/i.test(line)`
(line 51). -/
def headerEducation (line : String) : Bool :=
  startsWithStr (asciiLower line) "education" ||
    containsStr (asciiLower line) "degree" ||
    containsStr (asciiLower line) "university" ||
    containsStr (asciiLower line) "bachelor" ||
    containsStr (asciiLower line) "master"

/-- The dash class `[\-–—@]` of the entry regex (lines 58 and 63): hyphen,
en dash U+2013, em dash U+2014, or `@`. -/
def entryDash (c : Char) : Bool :=
  c == '-' || c.toNat == 0x2013 || c.toNat == 0x2014 || c == '@'

/-- Tail of the entry regex, `([0-9]{4}.*?)[\)]?$`, attempted at `cs`; returns
the characters of capture group 3.  The lazy `.*?` tries shorter extents first;
the greedy `[\)]?` tries to consume a `)` before its empty alternative; `$`
requires the end of the line. -/
def entryDatePart (cs : List Char) : Option (List Char) :=
  match cs with
  | d1 :: d2 :: d3 :: d4 :: rest =>
    if d1.isDigit && d2.isDigit && d3.isDigit && d4.isDigit then
      (List.range (rest.length + 1)).findSome? (fun m =>
        match rest.drop m with
        | [')'] => some (d1 :: d2 :: d3 :: d4 :: rest.take m)
        | [] => some (d1 :: d2 :: d3 :: d4 :: rest.take m)
        | _ => none)
    else none
  | _ => none

/-- `\s*\(?` followed by the date part: the greedy `\s*` backtracks from its
longest extent down to zero; the greedy `\(?` tries to consume `(` before its
empty alternative. -/
def entryAfterCompany (cs : List Char) : Option (List Char) :=
  let r := (cs.takeWhile jsIsSpace).length
  (List.range (r + 1)).reverse.findSome? (fun k =>
    let rest := cs.drop k
    (match rest with
     | '(' :: rest2 => entryDatePart rest2
     | _ => none) <|> entryDatePart rest)

/-- Lazy capture group 2, `(.*?)`, followed by `entryAfterCompany`: shorter
extents are tried first. -/
def entryCompanyPart (cs : List Char) : Option (List Char × List Char) :=
  (List.range (cs.length + 1)).findSome? (fun j =>
    (entryAfterCompany (cs.drop j)).map (fun g3 => (cs.take j, g3)))

/-- The entry regex `^(.*?)\s+[\-–—@]\s+(.*?)\s*\(?([0-9]{4}.*?)[\)]?$`
(parser lines 58 and 63), returning the three capture groups, exploring
alternatives in JS backtracking order: lazy group 1 shortest first, each
greedy `\s+` longest first, then the company/date tail. -/
def entryMatch (s : String) : Option (String × String × String) :=
  let cs := s.data
  (List.range (cs.length + 1)).findSome? (fun i =>
    let g1 := cs.take i
    let rest := cs.drop i
    let r := (rest.takeWhile jsIsSpace).length
    (List.range r).reverse.findSome? (fun k0 =>
      match rest.drop (k0 + 1) with
      | c :: rest3 =>
        if entryDash c then
          let r2 := (rest3.takeWhile jsIsSpace).length
          (List.range r2).reverse.findSome? (fun k20 =>
            (entryCompanyPart (rest3.drop (k20 + 1))).map
              (fun p => (String.mk g1, String.mk p.1, String.mk p.2)))
        else none
      | [] => none))

/-- Accumulator of the section loop: `currentSection`, `experience`,
`education` (parser lines 42-45). -/
structure SectionAcc where
  current : Option Sec
  experience : List ExperienceEntry
  education : List EducationEntry
deriving DecidableEq, Repr

/-- One iteration of the section loop (parser lines 46-66).  The two header
tests come first and `continue` (so a header line is never parsed as an entry);
otherwise the line is tried as an experience entry and then as an education
entry, according to the current section. -/
def sectionStep (acc : SectionAcc) (line : String) : SectionAcc :=
  if headerExperience line then { acc with current := some .experience }
  else if headerEducation line then { acc with current := some .education }
  else
    let acc1 :=
      if acc.current = some .experience then
        match entryMatch line with
        | some (t, c, d) =>
          { acc with experience := acc.experience ++
              [⟨some (jsTrim t), some (jsTrim c), some (jsTrim d), none⟩] }
        | none => acc
      else acc
    if acc1.current = some .education then
      match entryMatch line with
      | some (t, c, d) =>
        { acc1 with education := acc1.education ++
            [⟨some (jsTrim t), some (jsTrim c), some (jsTrim d)⟩] }
      | none => acc1
    else acc1

/-- The non-empty trimmed lines:
`raw.split(/\r?\n/).map((l) => l.trim()).filter(Boolean)` (parser line 24). -/
def linesOf (raw : String) : List String :=
  ((jsSplitLines raw).map jsTrim).filter (fun l => l != "")

/-- `ParserService.parse` (src/unnamed/part_001 lines 17-77). -/
def parse (text : String) : ParsedResume :=
  let raw := text
  let emailMatch := firstMatchAux emailAt raw.data
  let phoneMatch := firstMatchAux phoneAt raw.data
  let lines := linesOf raw
  let name : Option String :=
    match lines with
    | [] => none
    | candidate :: _ =>
      if nameRegexTest candidate && decide ((jsSplitWs candidate).length ≤ 5) then
        some candidate
      else none
  let skills := skillsScan (lines.take 30)
  let secs := lines.foldl sectionStep ⟨none, [], []⟩
  { name := name
    email := emailMatch.map String.mk
    phone := phoneMatch.map String.mk
    skills := skills
    experience := secs.experience
    education := secs.education
    raw := raw }

/-! ## The OCR engine (src/apps/server/src/resume/ocr.service.ts)

`OcrService.recognizeImageBuffer` wraps its whole body in `try/catch` and
returns `""` when tesseract.js is unavailable or fails, and `data?.text ?? ""`
on success; it never raises past its boundary.  The backend outcome is an
oracle `Option String`: `some t` means tesseract recognised text `t`, `none`
means the backend was missing or failed. -/

/-- `OcrService.recognizeImageBuffer` as a function of the backend oracle. -/
def recognizeImageBuffer (backend : Option String) : String :=
  match backend with
  | some t => t
  | none => ""

/-! ## The extraction orchestrator (resume.service.ts, `importFromFile`) -/

/-- Environment of one `importFromFile` call: the uploaded file's declared
MIME type and name, plus oracles for every external library the orchestrator
consults.

* `pdfNative`: `some t` — pdf-parse resolved and returned text `t`
  (`result?.text ?? ""`); `none` — pdf-parse missing or its invocation threw,
  in which case the code leaves `text = ""` (lines 76-103).
* `pdfPages`: `none` — pdf2pic could not be loaded or `convert.bulk` threw
  (the `catch` of `ocrPdfBuffer` returns `""`); `some rs` — the rasterised
  page list, where each element is `none` for a result without a `base64`
  field (skipped by line 233) and `some o` for a page image whose OCR oracle
  is `o`.
* `wordResult`: `some t` — mammoth extracted text `t`; `none` — mammoth threw
  (malformed container).
* `imageOcr`: the OCR oracle for the whole buffer when it is an image. -/
structure FileEnv where
  mimetype : String
  originalname : String
  pdfNative : Option String
  pdfPages : Option (List (Option (Option String)))
  wordResult : Option String
  imageOcr : Option String
deriving DecidableEq, Repr

/-- Body of the page loop of `ocrPdfBuffer` (resume.service.ts lines 232-244):
a page without a `base64` payload is skipped; otherwise its image is OCR'd and
a non-empty page text is appended followed by `"\n"`. -/
def ocrFoldStep (acc : String) (r : Option (Option String)) : String :=
  match r with
  | some o =>
    let pageText := recognizeImageBuffer o
    if pageText != "" then acc ++ pageText ++ "\n" else acc
  | none => acc

/-- `ResumeService.ocrPdfBuffer` (resume.service.ts lines 207-252): rasterise
all pages, OCR each page image that has a `base64` payload, append each
non-empty page text followed by `"\n"`, and return the trimmed concatenation.
Returns `""` when rasterisation fails or yields no pages. -/
def ocrPdfBuffer (pages : Option (List (Option (Option String)))) : String :=
  match pages with
  | none => ""
  | some results =>
    if results.length == 0 then ""
    else jsTrim (results.foldl ocrFoldStep "")

/-- The typed failures of `importFromFile`, one per `BadRequestException` the
method can throw.  `imageOcrFailed` models the `catch` of lines 136-139; it is
unreachable because `recognizeImageBuffer` never throws, and the theorems below
prove that. -/
inductive ImportError
  | unsupportedFormat
  | malformedWord
  | imageOcrFailed
  | noExtractableText
deriving DecidableEq, Repr

deriving instance DecidableEq for Except

/-- Outcome of the format-dispatch part of `importFromFile` (lines 72-144),
before the final no-extractable-text check, together with which external
stages were invoked. -/
structure ExtractOut where
  result : Except ImportError String
  pdfParseInvoked : Bool
  ocrFallbackInvoked : Bool
  wordInvoked : Bool
  imageOcrInvoked : Bool
deriving DecidableEq, Repr

/-- Format dispatch of `importFromFile` (lines 67-144): lower-case the declared
MIME type; a MIME containing `pdf` takes the PDF branch (native extraction,
then the OCR fallback when the text is empty or its trimmed length is below
20, adopting the OCR text only when it is non-empty); a MIME containing `word`
or `officedocument` takes the Word branch (a mammoth failure is fatal); a MIME
starting with `image/` is OCR'd directly; anything else is rejected. -/
def extractStep (f : FileEnv) : ExtractOut :=
  let mime := asciiLower f.mimetype
  if containsStr mime "pdf" then
    let text := f.pdfNative.getD ""
    if text == "" || decide ((jsTrim text).length < 20) then
      let ocrText := ocrPdfBuffer f.pdfPages
      let text := if ocrText != "" then ocrText else text
      ⟨.ok text, true, true, false, false⟩
    else ⟨.ok text, true, false, false, false⟩
  else if containsStr mime "word" || containsStr mime "officedocument" then
    match f.wordResult with
    | some t => ⟨.ok t, false, false, true, false⟩
    | none => ⟨.error .malformedWord, false, false, true, false⟩
  else if startsWithStr mime "image/" then
    ⟨.ok (recognizeImageBuffer f.imageOcr), false, false, false, true⟩
  else ⟨.error .unsupportedFormat, false, false, false, false⟩

/-- The extraction phase of `importFromFile` up to and including the final
check of lines 146-149: `if (!text || !text.trim()) throw ...`. -/
def importFromFileText (f : FileEnv) : Except ImportError String :=
  match (extractStep f).result with
  | .error e => .error e
  | .ok text =>
    if text == "" || jsTrim text == "" then .error .noExtractableText
    else .ok text

/-- JS `split(/\n{2,}/)` (line 151), fuel-indexed to stay structurally
recursive: a separator is a maximal run of at least two `\n`.  The fuel is
always at least the number of remaining characters, so the `0` case is never
reached on the inputs `jsSplitBlank` supplies. -/
def splitBlankCore : Nat → List Char → List Char → List (List Char)
  | 0, cs, acc => [acc.reverse ++ cs]
  | _ + 1, [], acc => [acc.reverse]
  | fuel + 1, '\n' :: '\n' :: rest, acc =>
    acc.reverse :: splitBlankCore fuel (rest.dropWhile (fun c => c == '\n')) []
  | fuel + 1, c :: rest, acc => splitBlankCore fuel rest (c :: acc)

/-- JS `s.split(/\n{2,}/)`. -/
def jsSplitBlank (s : String) : List String :=
  (splitBlankCore s.data.length s.data []).map String.mk

/-- JS `String.prototype.slice(0, n)`. -/
def jsTake (s : String) (n : Nat) : String := ⟨s.data.take n⟩

/-- Line 151: `text.trim().split(/\n{2,}/)[0]?.slice(0, 1200) ?? "Imported resume"`
— the headline summary is the first blank-line-separated block of the trimmed
text, cut to 1200 characters.  `split` never returns an empty array, so the
`?? "Imported resume"` default is unreachable; it is kept for faithfulness. -/
def summaryOf (text : String) : String :=
  match (jsSplitBlank (jsTrim text)).head? with
  | some block => jsTake block 1200
  | none => "Imported resume"

/-- Line 155: `file.originalname.replace(/\.[^/.]+$/, "")` — strip a final
extension: a last `.` followed by at least one character, none of which is
`/` or `.`.  Computed from the reversed character list. -/
def baseTitleOf (originalname : String) : String :=
  let rev := originalname.data.reverse
  let ext := rev.takeWhile (fun c => c != '.' && c != '/')
  match rev.drop ext.length with
  | '.' :: _ =>
    if ext.isEmpty then originalname
    else ⟨originalname.data.take (originalname.data.length - ext.length - 1)⟩
  | _ => originalname

/-- The record the service creates on success (lines 181-197), restricted to
the data computed by this core: the headline summary placed into the default
resume data, and the base title derived from the file name.  The slug/title
uniqueness loop (lines 157-177) consults the database and belongs to the
excluded persistence layer. -/
structure CreatedResume where
  headline : String
  baseTitle : String
deriving DecidableEq, Repr

/-- `ResumeService.importFromFile`: extraction followed by record creation. -/
def importFromFile (f : FileEnv) : Except ImportError CreatedResume :=
  match importFromFileText f with
  | .error e => .error e
  | .ok text => .ok ⟨summaryOf text, baseTitleOf f.originalname⟩

/-! ## The upload endpoint (src/unnamed/part_000, `importFile`) -/

/-- Environment of one `importFile` request: `none` models a request without a
file. -/
structure UploadEnv where
  file : Option FileEnv
deriving DecidableEq, Repr

/-- The `BadRequestException`s the endpoint body can raise: its own
`"No file provided"` and the typed errors of `importFromFile`. -/
inductive BadReqKind
  | noFile
  | importErr (e : ImportError)
deriving DecidableEq, Repr

/-- HTTP-level errors: a typed bad request, or the generic
`InternalServerErrorException`. -/
inductive HttpError
  | badRequest (k : BadReqKind)
  | internalServerError
deriving DecidableEq, Repr

/-- The endpoint's two success shapes: the `{ text, parsed }` payload returned
for images (controller line 100), or the resume record created by the service
for every other accepted format (controller line 103). -/
inductive ImportFileOk
  | ocrPayload (text : String) (parsed : ParsedResume)
  | resumeCreated (r : CreatedResume)
deriving DecidableEq, Repr

/-- The body of `ResumeController.importFile` (part_000 lines 92-103), before
the surrounding `catch`: reject a missing file; OCR and parse images directly;
delegate everything else to `ResumeService.importFromFile`. -/
def importFileInner (env : UploadEnv) : Except HttpError ImportFileOk :=
  match env.file with
  | none => .error (.badRequest .noFile)
  | some f =>
    let mime := asciiLower f.mimetype
    if startsWithStr mime "image/" then
      let text := recognizeImageBuffer f.imageOcr
      .ok (.ocrPayload text (parse text))
    else
      match importFromFile f with
      | .ok r => .ok (.resumeCreated r)
      | .error e => .error (.badRequest (.importErr e))

/-- `ResumeController.importFile` (part_000 lines 91-108): the whole body runs
inside `try { ... } catch (error) { throw new InternalServerErrorException }`,
so every error of the body — including each typed `BadRequestException` — is
re-raised as the generic internal-server error. -/
def importFile (env : UploadEnv) : Except HttpError ImportFileOk :=
  match importFileInner env with
  | .ok x => .ok x
  | .error _ => .error .internalServerError

/-! ## Auxiliary definitions used by the specification statements -/

/-- "The first character, if any, is not whitespace." -/
def noLeadWs : List Char → Prop
  | [] => True
  | c :: _ => jsIsSpace c = false

/-- "The last character, if any, is not whitespace." -/
def noTrailWs (cs : List Char) : Prop := noLeadWs cs.reverse

/-- The decimal digit character for `d < 10`. -/
def digitChar (d : Nat) : Char := Char.ofNat (48 + d)

/-- Decimal digits of a natural number, most significant first, fuel-indexed to
stay structurally recursive; `fuel = n + 1` is always sufficient because the
argument shrinks by a factor of ten each step. -/
def natDigitsCore : Nat → Nat → List Char → List Char
  | 0, _, acc => acc
  | fuel + 1, n, acc =>
    if n < 10 then digitChar n :: acc
    else natDigitsCore fuel (n / 10) (digitChar (n % 10) :: acc)

/-- Decimal digits of `n`. -/
def natDigits (n : Nat) : List Char := natDigitsCore (n + 1) n []

/-- The hypothetical OCR output `"page{i}"` of claim C4. -/
def pageName (i : Nat) : String := "page" ++ String.mk (natDigits i)

/-- Newline-separated concatenation: `"page0\npage1\n...\npage{N-1}"`. -/
def nlJoin : List String → String
  | [] => ""
  | [s] => s
  | s :: t :: rest => s ++ "\n" ++ nlJoin (t :: rest)

/-- `t₀ ++ "\n" ++ t₁ ++ "\n" ++ ...` — the raw accumulation produced by the
page loop of `ocrPdfBuffer` before trimming. -/
def concatNL : List String → String
  | [] => ""
  | t :: rest => t ++ "\n" ++ concatNL rest

/-- Maximal runs of non-whitespace characters, fuel-indexed to stay
structurally recursive; any fuel of at least the list's length gives the same
result (`tokensOfCore_fuel`). -/
def tokensOfCore : Nat → List Char → List (List Char)
  | 0, _ => []
  | _ + 1, [] => []
  | fuel + 1, c :: rest =>
    if jsIsSpace c then tokensOfCore fuel rest
    else (c :: rest.takeWhile (fun d => !jsIsSpace d)) ::
      tokensOfCore fuel (rest.dropWhile (fun d => !jsIsSpace d))

/-- The "whitespace-separated tokens" of claim C5: the maximal runs of
non-whitespace characters. -/
def tokensOf (cs : List Char) : List (List Char) := tokensOfCore cs.length cs

/-- The name-acceptance rule exactly as claim C5 words it: only letters,
spaces and the characters `,.'-`; length 2-80; at most 5 whitespace-separated
tokens. -/
def claimNameOk (c : String) : Bool :=
  c.data.all nameChar && decide (2 ≤ c.data.length) && decide (c.data.length ≤ 80) &&
    decide ((tokensOf c.data).length ≤ 5)

/-- The separator set claim C7 asserts for the first skills split: `:`,
`-`, en dash *or em dash* (the code's actual class has no em dash). -/
def claimSkillSep (c : Char) : Bool :=
  c == ':' || c == '-' || c.toNat == 0x2013 || c.toNat == 0x2014

/-- The per-line skills rule exactly as claim C7 words it: take everything
after the first `:`/`-`/en dash/em dash, split it on `;`/`,`/`|`/`•`/`·`,
trim each token and drop the empty ones. -/
def claimSkillsLine (line : String) : List String :=
  let after := (line.data.dropWhile (fun c => !claimSkillSep c)).drop 1
  ((jsSplitClass skillSplitChar2 (String.mk after)).map jsTrim).filter (fun s => s != "")

/-- The whole skills rule as claim C7 words it: first "skill"-containing line
among the first 30 non-empty lines, then `claimSkillsLine`. -/
def claimSkills (text : String) : List String :=
  match ((linesOf text).take 30).find? (fun l => containsStr (asciiLower l) "skill") with
  | some line => claimSkillsLine line
  | none => []

/-- The MIME whitelist exactly as claim C9 words it: `application/pdf`, the
Word-document MIME variants, or any `image/*`. -/
def claimAllowedMime (m : String) : Bool :=
  m == "application/pdf" || m == "application/msword" ||
    m == "application/vnd.openxmlformats-officedocument.wordprocessingml.document" ||
    startsWithStr m "image/"

/-! ## Lemmas about trimming -/

theorem jsTrim_empty : jsTrim "" = "" := rfl

theorem dropWhile_eq_self_of_noLead {cs : List Char} (h : noLeadWs cs) :
    cs.dropWhile jsIsSpace = cs := by
  cases cs with
  | nil => rfl
  | cons c rest =>
    simp only [noLeadWs] at h
    simp [List.dropWhile_cons, h]

theorem trimChars_eq_self {cs : List Char} (h1 : noLeadWs cs) (h2 : noTrailWs cs) :
    trimChars cs = cs := by
  unfold trimChars
  rw [dropWhile_eq_self_of_noLead h1, dropWhile_eq_self_of_noLead h2,
    List.reverse_reverse]

theorem trimChars_append_newline {cs : List Char} (hne : cs ≠ []) (h1 : noLeadWs cs)
    (h2 : noTrailWs cs) : trimChars (cs ++ ['\n']) = cs := by
  unfold trimChars
  have hd : (cs ++ ['\n']).dropWhile jsIsSpace = cs ++ ['\n'] := by
    cases cs with
    | nil => exact absurd rfl hne
    | cons c rest =>
      simp only [noLeadWs] at h1
      simp [List.cons_append, List.dropWhile_cons, h1]
  rw [hd, List.reverse_append]
  simp only [List.reverse_cons, List.reverse_nil, List.nil_append, List.singleton_append]
  rw [List.dropWhile_cons_of_pos (by decide : jsIsSpace '\n' = true),
    dropWhile_eq_self_of_noLead h2, List.reverse_reverse]

theorem noLeadWs_dropWhile (l : List Char) : noLeadWs (l.dropWhile jsIsSpace) := by
  induction l with
  | nil => trivial
  | cons c rest ih =>
    by_cases h : jsIsSpace c = true
    · rw [List.dropWhile_cons_of_pos h]; exact ih
    · rw [List.dropWhile_cons_of_neg h]
      simp only [noLeadWs]
      exact Bool.eq_false_iff.mpr h

theorem getLast?_dropWhile {p : Char → Bool} {l : List Char} (h : l.dropWhile p ≠ []) :
    (l.dropWhile p).getLast? = l.getLast? := by
  induction l with
  | nil => simp at h
  | cons c rest ih =>
    by_cases hc : p c = true
    · rw [List.dropWhile_cons_of_pos hc] at h ⊢
      rw [ih h]
      cases rest with
      | nil => simp at h
      | cons d rest2 => rw [List.getLast?_cons_cons]
    · rw [List.dropWhile_cons_of_neg hc]

theorem noTrailWs_trimChars (cs : List Char) : noTrailWs (trimChars cs) := by
  unfold noTrailWs trimChars
  rw [List.reverse_reverse]
  exact noLeadWs_dropWhile _

theorem noLeadWs_trimChars (cs : List Char) : noLeadWs (trimChars cs) := by
  unfold trimChars
  cases h : ((cs.dropWhile jsIsSpace).reverse.dropWhile jsIsSpace).reverse with
  | nil => trivial
  | cons c rest =>
    simp only [noLeadWs]
    have h1 : (cs.dropWhile jsIsSpace).reverse.dropWhile jsIsSpace ≠ [] := by
      intro hz
      rw [hz] at h
      simp at h
    have h3 : ((cs.dropWhile jsIsSpace).reverse.dropWhile jsIsSpace).reverse.head? =
        some c := by rw [h]; rfl
    rw [List.head?_reverse, getLast?_dropWhile h1, List.getLast?_eq_head?_reverse,
      List.reverse_reverse] at h3
    have h4 := noLeadWs_dropWhile cs
    cases hcs : cs.dropWhile jsIsSpace with
    | nil => rw [hcs] at h3; simp at h3
    | cons d tl =>
      rw [hcs] at h3
      simp only [List.head?_cons, Option.some.injEq] at h3
      rw [hcs] at h4
      simp only [noLeadWs] at h4
      rwa [h3] at h4

theorem trimChars_idem (cs : List Char) : trimChars (trimChars cs) = trimChars cs :=
  trimChars_eq_self (noLeadWs_trimChars cs) (noTrailWs_trimChars cs)

theorem jsTrim_idem (s : String) : jsTrim (jsTrim s) = jsTrim s :=
  String.ext (trimChars_idem s.data)

/-! ## Claim theorems: the parser's `raw` field (C8) -/

/-- C8: for every input string `text`, `parse(text).raw` equals `text` exactly
(no normalization loss), including when the input has no recognizable structure;
in particular `parse("")` returns `raw = ""`. -/
theorem parse_raw_exact :
    (∀ text : String, (parse text).raw = text) ∧ (parse "").raw = "" :=
  ⟨fun _ => rfl, rfl⟩

/-! ## Claim theorems: the endpoint's catch-all (C10) -/

/-- C10: every error raised while handling the file-import endpoint — including
each typed bad-request rejection produced by the body — is caught and re-raised
as the generic internal-server error, while successes pass through unchanged;
a caller therefore never observes the typed error conditions as such. -/
theorem importFile_wraps_all_errors : ∀ env : UploadEnv,
    (∀ e, importFileInner env = .error e →
      importFile env = .error .internalServerError) ∧
    (∀ x, importFileInner env = .ok x → importFile env = .ok x) ∧
    ((∃ x, importFile env = .ok x) ∨
      importFile env = .error .internalServerError) := by
  intro env
  refine ⟨fun e he => ?_, fun x hx => ?_, ?_⟩
  · unfold importFile
    rw [he]
  · unfold importFile
    rw [hx]
  · unfold importFile
    cases importFileInner env with
    | ok x => exact Or.inl ⟨x, rfl⟩
    | error e => exact Or.inr rfl

/-- Witness for C10: a request with no file makes the body raise the typed
`BadRequestException("No file provided")`, and the endpoint surfaces it as the
generic internal-server error. -/
theorem importFile_wraps_all_errors_witness :
    importFile ⟨none⟩ = .error .internalServerError :=
  (importFile_wraps_all_errors ⟨none⟩).1 (.badRequest .noFile) rfl

/-! ## Claim theorems: the PDF OCR-fallback trigger (C2) -/

/-- The fallback trigger `!text || text.trim().length < 20` of
resume.service.ts line 106 is equivalent to the trimmed length being below
20, because the empty string trims to length 0. -/
theorem pdfTrigger_iff (text : String) :
    (text == "" || decide ((jsTrim text).length < 20)) = true ↔
      (jsTrim text).length < 20 := by
  simp only [Bool.or_eq_true, beq_iff_eq, decide_eq_true_eq]
  constructor
  · rintro (rfl | h)
    · rw [jsTrim_empty]; decide
    · exact h
  · exact Or.inr

/-- The PDF branch of `extractStep` when the fallback triggers. -/
theorem extractStep_pdf_fallback {f : FileEnv}
    (hmime : containsStr (asciiLower f.mimetype) "pdf" = true)
    (hlt : (jsTrim (f.pdfNative.getD "")).length < 20) :
    extractStep f =
      ⟨.ok (if ocrPdfBuffer f.pdfPages != "" then ocrPdfBuffer f.pdfPages
            else f.pdfNative.getD ""), true, true, false, false⟩ := by
  have htrig := (pdfTrigger_iff (f.pdfNative.getD "")).mpr hlt
  simp [extractStep, hmime, htrig]

/-- The PDF branch of `extractStep` when the native text is long enough. -/
theorem extractStep_pdf_native {f : FileEnv}
    (hmime : containsStr (asciiLower f.mimetype) "pdf" = true)
    (hge : ¬ (jsTrim (f.pdfNative.getD "")).length < 20) :
    extractStep f = ⟨.ok (f.pdfNative.getD ""), true, false, false, false⟩ := by
  have htrig : (f.pdfNative.getD "" == "" ||
      decide ((jsTrim (f.pdfNative.getD "")).length < 20)) = false :=
    Bool.eq_false_iff.mpr (fun hx => hge ((pdfTrigger_iff _).mp hx))
  simp [extractStep, hmime, htrig]

/-- C2: for every PDF input, the OCR fallback is attempted iff the trimmed
native text has length below 20; when attempted, its result replaces the
native text only if it is non-empty; when the trimmed native text has length
at least 20, neither OCR nor rasterization is invoked and the native text is
kept. -/
theorem pdf_ocr_fallback_policy : ∀ f : FileEnv,
    containsStr (asciiLower f.mimetype) "pdf" = true →
    (((extractStep f).ocrFallbackInvoked = true ↔
        (jsTrim (f.pdfNative.getD "")).length < 20) ∧
      ((jsTrim (f.pdfNative.getD "")).length < 20 →
        (extractStep f).result = .ok
          (if ocrPdfBuffer f.pdfPages != "" then ocrPdfBuffer f.pdfPages
           else f.pdfNative.getD "")) ∧
      (20 ≤ (jsTrim (f.pdfNative.getD "")).length →
        (extractStep f).ocrFallbackInvoked = false ∧
        (extractStep f).result = .ok (f.pdfNative.getD ""))) := by
  intro f hmime
  refine ⟨?_, ?_, ?_⟩
  · rcases Nat.lt_or_ge (jsTrim (f.pdfNative.getD "")).length 20 with h | h
    · rw [extractStep_pdf_fallback hmime h]
      exact ⟨fun _ => h, fun _ => rfl⟩
    · rw [extractStep_pdf_native hmime (by omega)]
      exact ⟨fun hx => (nomatch hx), fun hx => absurd hx (by omega)⟩
  · intro h
    rw [extractStep_pdf_fallback hmime h]
  · intro h
    rw [extractStep_pdf_native hmime (by omega)]
    exact ⟨rfl, rfl⟩

/-- Witness for C2: a scanned PDF (native text `""`) falls back to OCR and
adopts the page text; a PDF with 45 characters of native text keeps it and
never invokes the fallback. -/
theorem pdf_ocr_fallback_policy_witness :
    (extractStep ⟨"application/pdf", "scan.pdf", some "",
        some [some (some "page0")], none, none⟩).result = .ok "page0" ∧
    (extractStep ⟨"application/pdf", "doc.pdf",
        some "This is a resume with plenty of text content.",
        none, none, none⟩).ocrFallbackInvoked = false := by
  constructor
  · have h := (pdf_ocr_fallback_policy
      ⟨"application/pdf", "scan.pdf", some "", some [some (some "page0")], none, none⟩
      (by decide)).2.1 (by decide)
    rw [h]
    decide
  · exact ((pdf_ocr_fallback_policy
      ⟨"application/pdf", "doc.pdf",
        some "This is a resume with plenty of text content.", none, none, none⟩
      (by decide)).2.2 (by decide)).1

/-! ## Claim theorems: error classification (C3) -/

/-- The dispatch stage never produces the image-OCR error: the OCR service
catches every internal failure and returns `""` instead of throwing, so the
`catch` of resume.service.ts lines 136-139 is unreachable. -/
theorem extractStep_no_imageOcrFailed (f : FileEnv) :
    (extractStep f).result ≠ .error .imageOcrFailed := by
  simp only [extractStep]
  repeat' split
  all_goals simp

/-- C3: for every supported input, after dispatch and any OCR fallback the
extraction fails with the no-extractable-text error iff the final text is
empty or whitespace-only, and succeeds with that text otherwise; and every
ingestion call yields exactly one of a success or one of the three named
errors — the fourth, image-OCR-failed, is unreachable. -/
theorem extraction_error_classification :
    (∀ (f : FileEnv) (t : String), (extractStep f).result = .ok t →
      ((importFromFileText f = .error .noExtractableText ↔ jsTrim t = "") ∧
        (jsTrim t ≠ "" → importFromFileText f = .ok t))) ∧
    (∀ f : FileEnv, importFromFileText f ≠ .error .imageOcrFailed) := by
  constructor
  · intro f t hok
    have hcond : (t == "" || jsTrim t == "") = true ↔ jsTrim t = "" := by
      simp only [Bool.or_eq_true, beq_iff_eq]
      constructor
      · rintro (rfl | h)
        · exact jsTrim_empty
        · exact h
      · exact Or.inr
    have heq : importFromFileText f =
        (if (t == "" || jsTrim t == "") = true then
          Except.error ImportError.noExtractableText else .ok t) := by
      unfold importFromFileText
      rw [hok]
    by_cases hc : (t == "" || jsTrim t == "") = true
    · have h1 : importFromFileText f = .error .noExtractableText := by
        rw [heq, if_pos hc]
      exact ⟨⟨fun _ => hcond.mp hc, fun _ => h1⟩,
        fun hne => absurd (hcond.mp hc) hne⟩
    · have h1 : importFromFileText f = .ok t := by rw [heq, if_neg hc]
      refine ⟨⟨fun hx => ?_, fun hx => absurd (hcond.mpr hx) hc⟩, fun _ => h1⟩
      rw [h1] at hx
      exact absurd hx (by simp)
  · intro f
    cases h : (extractStep f).result with
    | error e =>
      have he : e ≠ .imageOcrFailed := fun hee =>
        extractStep_no_imageOcrFailed f (by rw [h, hee])
      have heq : importFromFileText f = .error e := by
        unfold importFromFileText
        rw [h]
      rw [heq]
      simp [he]
    | ok t =>
      have heq : importFromFileText f =
          (if (t == "" || jsTrim t == "") = true then
            Except.error ImportError.noExtractableText else .ok t) := by
        unfold importFromFileText
        rw [h]
      rw [heq]
      split <;> simp

/-- Witness for C3: a Word document whose extractor returned real text passes
the final check and the call succeeds with exactly that text. -/
theorem extraction_error_classification_witness :
    importFromFileText ⟨"application/msword", "cv.docx", none, none,
        some "hello world text", none⟩ = .ok "hello world text" :=
  (extraction_error_classification.1 _ "hello world text" (by decide)).2 (by decide)

/-! ## Claim theorems: MIME dispatch (C9) -/

/-- Counterexample to C9 as stated: the MIME type `text/pdf` is outside the
claim's whitelist (`application/pdf`, the Word-document variants, `image/*`),
yet the code does not reject it — substring dispatch sends it down the PDF
branch and extraction proceeds. -/
theorem mime_whitelist_counterexample :
    claimAllowedMime "text/pdf" = false ∧
    importFromFileText ⟨"text/pdf", "resume.pdf",
        some "This is a resume with plenty of text content.", none, none, none⟩ =
      .ok "This is a resume with plenty of text content." ∧
    importFromFileText ⟨"text/pdf", "resume.pdf",
        some "This is a resume with plenty of text content.", none, none, none⟩ ≠
      .error .unsupportedFormat := by
  exact ⟨by decide, by decide, by decide⟩

/-- If the dispatch stage rejected the file as unsupported, the lower-cased
MIME type matched none of the dispatch substrings: every other branch of
`importFromFile` produces a success or a different error. -/
theorem extractStep_unsupported_mime {f : FileEnv}
    (h : (extractStep f).result = .error .unsupportedFormat) :
    containsStr (asciiLower f.mimetype) "pdf" = false ∧
    containsStr (asciiLower f.mimetype) "word" = false ∧
    containsStr (asciiLower f.mimetype) "officedocument" = false ∧
    startsWithStr (asciiLower f.mimetype) "image/" = false := by
  simp only [extractStep] at h
  by_cases hp : containsStr (asciiLower f.mimetype) "pdf" = true
  · rw [if_pos hp] at h
    split at h <;> simp at h
  · rw [if_neg hp] at h
    by_cases hw : (containsStr (asciiLower f.mimetype) "word" ||
        containsStr (asciiLower f.mimetype) "officedocument") = true
    · rw [if_pos hw] at h
      cases hwr : f.wordResult <;> rw [hwr] at h <;> simp at h
    · rw [if_neg hw] at h
      by_cases hi : startsWithStr (asciiLower f.mimetype) "image/" = true
      · rw [if_pos hi] at h
        simp at h
      · simp only [Bool.or_eq_true, not_or] at hw
        exact ⟨Bool.eq_false_iff.mpr hp, Bool.eq_false_iff.mpr hw.1,
          Bool.eq_false_iff.mpr hw.2, Bool.eq_false_iff.mpr hi⟩

/-- The final empty-text check introduces no unsupported-format error: if the
whole extraction reports unsupported-format, the dispatch stage did. -/
theorem importFromFileText_unsupported {f : FileEnv}
    (h : importFromFileText f = .error .unsupportedFormat) :
    (extractStep f).result = .error .unsupportedFormat := by
  cases hres : (extractStep f).result with
  | error e =>
    have heq : importFromFileText f = .error e := by
      unfold importFromFileText
      rw [hres]
    exact heq.symm.trans h
  | ok t =>
    have heq : importFromFileText f =
        (if (t == "" || jsTrim t == "") = true then
          Except.error ImportError.noExtractableText else .ok t) := by
      unfold importFromFileText
      rw [hres]
    rw [heq] at h
    split at h <;> simp at h

/-- C9 amended: the orchestrator rejects with the unsupported-format error —
before any extractor runs — exactly those MIME types whose lower-cased form
contains none of `pdf`, `word`, `officedocument` and does not start with
`image/` (a MIME matching any of these is never rejected as unsupported); and
for Word documents (a non-PDF MIME containing `word` or `officedocument`) a
container parse failure is fatal, surfacing as the malformed-document error
with no OCR fallback attempted. -/
theorem mime_dispatch_policy : ∀ f : FileEnv,
    (containsStr (asciiLower f.mimetype) "pdf" = false →
      containsStr (asciiLower f.mimetype) "word" = false →
      containsStr (asciiLower f.mimetype) "officedocument" = false →
      startsWithStr (asciiLower f.mimetype) "image/" = false →
      extractStep f = ⟨.error .unsupportedFormat, false, false, false, false⟩ ∧
        importFromFileText f = .error .unsupportedFormat) ∧
    (containsStr (asciiLower f.mimetype) "pdf" = false →
      (containsStr (asciiLower f.mimetype) "word" = true ∨
        containsStr (asciiLower f.mimetype) "officedocument" = true) →
      f.wordResult = none →
      importFromFileText f = .error .malformedWord ∧
        (extractStep f).ocrFallbackInvoked = false) ∧
    ((containsStr (asciiLower f.mimetype) "pdf" = true ∨
      containsStr (asciiLower f.mimetype) "word" = true ∨
      containsStr (asciiLower f.mimetype) "officedocument" = true ∨
      startsWithStr (asciiLower f.mimetype) "image/" = true) →
      importFromFileText f ≠ .error .unsupportedFormat ∧
        (extractStep f).result ≠ .error .unsupportedFormat) := by
  intro f
  refine ⟨?_, ?_, ?_⟩
  · intro h1 h2 h3 h4
    have hstep : extractStep f =
        ⟨.error .unsupportedFormat, false, false, false, false⟩ := by
      simp [extractStep, h1, h2, h3, h4]
    refine ⟨hstep, ?_⟩
    unfold importFromFileText
    rw [hstep]
  · intro h1 h2 h3
    have hw : (containsStr (asciiLower f.mimetype) "word" ||
        containsStr (asciiLower f.mimetype) "officedocument") = true := by
      rcases h2 with h | h <;> simp [h]
    have hstep : extractStep f = ⟨.error .malformedWord, false, false, true, false⟩ := by
      simp [extractStep, h1, hw, h3]
    constructor
    · unfold importFromFileText
      rw [hstep]
    · rw [hstep]
  · intro hmatch
    have hstep : (extractStep f).result ≠ .error .unsupportedFormat := by
      intro hbad
      obtain ⟨h1, h2, h3, h4⟩ := extractStep_unsupported_mime hbad
      rcases hmatch with h | h | h | h
      · rw [h] at h1; cases h1
      · rw [h] at h2; cases h2
      · rw [h] at h3; cases h3
      · rw [h] at h4; cases h4
    exact ⟨fun hbad => hstep (importFromFileText_unsupported hbad), hstep⟩

/-- Witness for C9's amended statement: `application/zip` is rejected as
unsupported with no extractor invoked; a malformed `application/msword`
surfaces the malformed-document error; and an `image/png` upload is never
rejected as unsupported. -/
theorem mime_dispatch_policy_witness :
    importFromFileText ⟨"application/zip", "cv.zip", none, none, some "hi", none⟩ =
      .error .unsupportedFormat ∧
    importFromFileText ⟨"application/msword", "cv.docx", none, none, none, none⟩ =
      .error .malformedWord ∧
    importFromFileText ⟨"image/png", "scan.png", none, none, none,
        some "scanned text"⟩ ≠ .error .unsupportedFormat := by
  refine ⟨?_, ?_, ?_⟩
  · exact ((mime_dispatch_policy _).1 (by decide) (by decide) (by decide) (by decide)).2
  · exact ((mime_dispatch_policy _).2.1 (by decide) (Or.inl (by decide)) rfl).1
  · exact ((mime_dispatch_policy _).2.2
      (Or.inr (Or.inr (Or.inr (by decide))))).1

/-! ## Claim theorems: what flows into the parser (C1) -/

/-- Counterexample to C1 as stated: a PDF upload is ingested successfully, yet
its result is the created-resume record — which contains no `ParsedResume` at
all — and not the `{ text, parsed }` payload; only image uploads flow through
the heuristic parser. -/
theorem import_pipeline_counterexample :
    importFile ⟨some ⟨"application/pdf", "resume.pdf",
        some "This is a resume with plenty of text content.", none, none, none⟩⟩ =
      .ok (.resumeCreated ⟨"This is a resume with plenty of text content.", "resume"⟩) ∧
    importFile ⟨some ⟨"application/pdf", "resume.pdf",
        some "This is a resume with plenty of text content.", none, none, none⟩⟩ ≠
      .ok (.ocrPayload "This is a resume with plenty of text content."
        (parse "This is a resume with plenty of text content.")) := by
  exact ⟨by decide, by decide⟩

/-- C1 amended: only image uploads flow through the heuristic parser — for an
image, the OCR text is handed to `parse` and the response is the
`{ text, parsed }` payload; for every other accepted format whose extraction
succeeds, the response is a created resume (headline = summary of the
extracted text, title from the file name) and the parser is not involved. -/
theorem import_pipeline_shape : ∀ (env : UploadEnv) (f : FileEnv), env.file = some f →
    (startsWithStr (asciiLower f.mimetype) "image/" = true →
      importFile env = .ok (.ocrPayload (recognizeImageBuffer f.imageOcr)
        (parse (recognizeImageBuffer f.imageOcr)))) ∧
    (startsWithStr (asciiLower f.mimetype) "image/" = false →
      ∀ text, importFromFileText f = .ok text →
        importFile env = .ok (.resumeCreated
          ⟨summaryOf text, baseTitleOf f.originalname⟩)) := by
  intro env f hf
  constructor
  · intro himg
    unfold importFile importFileInner
    rw [hf]
    simp [himg]
  · intro himg text htext
    unfold importFile importFileInner importFromFile
    rw [hf]
    simp [himg, htext]

/-- Witness for C1's amended statement: an image upload returns the parsed
payload; a PDF upload returns the created-resume record. -/
theorem import_pipeline_shape_witness :
    importFile ⟨some ⟨"image/png", "scan.png", none, none, none,
        some "John Smith\nEngineer"⟩⟩ =
      .ok (.ocrPayload "John Smith\nEngineer" (parse "John Smith\nEngineer")) ∧
    importFile ⟨some ⟨"application/pdf", "cv.pdf",
        some "Plenty of extractable text in this resume.", none, none, none⟩⟩ =
      .ok (.resumeCreated ⟨summaryOf "Plenty of extractable text in this resume.",
        baseTitleOf "cv.pdf"⟩) := by
  constructor
  · exact (import_pipeline_shape _ _ rfl).1 (by decide)
  · exact (import_pipeline_shape _ _ rfl).2 (by decide) _ (by decide)

/-! ## Claim theorems: section parsing (C6) -/

/-- C6: on the four-line input below, `parse` produces exactly one experience
entry `{title: "Senior Engineer", company: "Acme Corp", dateRange: "2019-2022"}`
and one education entry `{degree: "BSc Computer Science", institution: "MIT",
dateRange: "2015"}`; and on every line the section-header patterns are tested
before the entry pattern — a line matching a header only switches the current
section and never contributes an entry. -/
theorem section_parsing_example :
    ((parse "Experience\nSenior Engineer - Acme Corp (2019-2022)\nEducation\nBSc Computer Science - MIT (2015)").experience =
        [⟨some "Senior Engineer", some "Acme Corp", some "2019-2022", none⟩] ∧
      (parse "Experience\nSenior Engineer - Acme Corp (2019-2022)\nEducation\nBSc Computer Science - MIT (2015)").education =
        [⟨some "BSc Computer Science", some "MIT", some "2015"⟩]) ∧
    (∀ (acc : SectionAcc) (line : String),
      headerExperience line = true ∨ headerEducation line = true →
      (sectionStep acc line).experience = acc.experience ∧
        (sectionStep acc line).education = acc.education) := by
  refine ⟨⟨by decide, by decide⟩, ?_⟩
  intro acc line h
  unfold sectionStep
  rcases h with h | h
  · simp [h]
  · by_cases h1 : headerExperience line = true
    · simp [h1]
    · simp [Bool.eq_false_iff.mpr h1, h]

/-- Witness for C6's header-priority part: inside an experience section, the
line `"Education"` matches a section-header pattern and adds no entry. -/
theorem section_parsing_example_witness :
    (sectionStep ⟨some .experience, [], []⟩ "Education").experience = [] ∧
    (sectionStep ⟨some .experience, [], []⟩ "Education").education = [] :=
  section_parsing_example.2 ⟨some .experience, [], []⟩ "Education" (Or.inr (by decide))

/-! ## Claim theorems: the skills rule (C7) -/

theorem startsWithL_containsL {h p : List Char} (hs : startsWithL h p = true) :
    containsL h p = true := by
  cases h with
  | nil =>
    cases p with
    | nil => rfl
    | cons c t => simp [startsWithL] at hs
  | cons c t => simp [containsL, hs]

/-- The skills-line condition `/^skills?/i.test(line) || line.toLowerCase().includes("skill")`
collapses to the `includes` test: a prefix match is in particular a substring
match. -/
theorem skillLineTest_eq (line : String) :
    skillLineTest line = containsStr (asciiLower line) "skill" := by
  unfold skillLineTest
  cases hs : startsWithStr (asciiLower line) "skill"
  · simp
  · have hc := startsWithL_containsL (h := (asciiLower line).data) (p := "skill".data) hs
    simp [containsStr, hc]

/-- The `for ... break` loop over candidate lines is the first-match rule. -/
theorem skillsScan_eq_find (l : List String) :
    skillsScan l = (match l.find? skillLineTest with
      | some line => skillsParts line
      | none => []) := by
  induction l with
  | nil => rfl
  | cons line rest ih =>
    by_cases h : skillLineTest line = true
    · simp [skillsScan, List.find?_cons, h]
    · simp [skillsScan, List.find?_cons, Bool.eq_false_iff.mpr h, ih]

/-- Every token produced by the skills split is non-empty and trimmed. -/
theorem skillsParts_mem {line s : String} (hs : s ∈ skillsParts line) :
    s ≠ "" ∧ jsTrim s = s := by
  unfold skillsParts at hs
  simp only [List.mem_filter, List.mem_map, bne_iff_ne, ne_eq] at hs
  obtain ⟨⟨x, _, rfl⟩, hne⟩ := hs
  exact ⟨hne, jsTrim_idem x⟩

/-- Counterexample to C7 as stated: the first split class of the skills line is
`[:\-–]` — colon, hyphen, en dash — and does *not* contain the em dash, so on
`"Skills — Python; SQL"` the code returns no skills, while the claim's own
rule (split after the first `:`/`-`/en/em-dash) yields `["Python", "SQL"]`. -/
theorem skills_emdash_counterexample :
    (parse "Skills — Python; SQL").skills = [] ∧
    claimSkills "Skills — Python; SQL" = ["Python", "SQL"] :=
  ⟨by decide, by decide⟩

/-- C7 amended: `parse` computes skills by scanning at most the first 30
non-empty lines for the first line containing `"skill"` (case-insensitively);
on that line it splits on `:`, `-`, en dash (not em dash) or `\n`, drops the
segment before the first separator and joins the remaining segments with
single spaces, splits that on `;`, `,`, `|`, `•`, `·`, trims each token and
drops the empty ones, and consults no further line; and every element of the
returned skills list is a non-empty trimmed string. -/
theorem skills_rule :
    (∀ text : String, (parse text).skills =
      (match ((linesOf text).take 30).find?
          (fun l => containsStr (asciiLower l) "skill") with
       | some line => skillsParts line
       | none => [])) ∧
    (∀ (text s : String), s ∈ (parse text).skills → s ≠ "" ∧ jsTrim s = s) := by
  have hfun : skillLineTest = fun l => containsStr (asciiLower l) "skill" :=
    funext skillLineTest_eq
  constructor
  · intro text
    have h1 : (parse text).skills = skillsScan ((linesOf text).take 30) := rfl
    rw [h1, skillsScan_eq_find, hfun]
  · intro text s hs
    have h1 : (parse text).skills = skillsScan ((linesOf text).take 30) := rfl
    rw [h1, skillsScan_eq_find] at hs
    cases hfind : ((linesOf text).take 30).find? skillLineTest with
    | none => rw [hfind] at hs; simp at hs
    | some line => rw [hfind] at hs; exact skillsParts_mem hs

/-- Witness for C7's amended statement: `"Python"` is among the skills parsed
from `"Skills: Python; SQL"`, and is indeed non-empty and trimmed. -/
theorem skills_rule_witness :
    ("Python" : String) ≠ "" ∧ jsTrim "Python" = "Python" :=
  skills_rule.2 "Skills: Python; SQL" "Python" (by decide)

/-! ## Claim theorems: OCR page order (C4) -/

/-- A non-empty string of non-whitespace characters. -/
def goodToken (s : String) : Prop :=
  s.data ≠ [] ∧ ∀ c ∈ s.data, jsIsSpace c = false

theorem digitChar_not_ws {d : Nat} (hd : d < 10) : jsIsSpace (digitChar d) = false := by
  interval_cases d <;> decide

theorem natDigitsCore_not_ws : ∀ (fuel n : Nat) (acc : List Char),
    (∀ c ∈ acc, jsIsSpace c = false) →
    ∀ c ∈ natDigitsCore fuel n acc, jsIsSpace c = false := by
  intro fuel
  induction fuel with
  | zero => intro n acc hacc; exact hacc
  | succ fuel ih =>
    intro n acc hacc c hc
    unfold natDigitsCore at hc
    by_cases h : n < 10
    · rw [if_pos h] at hc
      rcases List.mem_cons.mp hc with rfl | hmem
      · exact digitChar_not_ws h
      · exact hacc _ hmem
    · rw [if_neg h] at hc
      refine ih (n / 10) _ ?_ c hc
      intro c' hc'
      rcases List.mem_cons.mp hc' with rfl | hmem
      · exact digitChar_not_ws (Nat.mod_lt _ (by omega))
      · exact hacc _ hmem

theorem natDigitsCore_ne_nil : ∀ (fuel n : Nat) (acc : List Char),
    acc ≠ [] → natDigitsCore fuel n acc ≠ [] := by
  intro fuel
  induction fuel with
  | zero => intro n acc hacc; exact hacc
  | succ fuel ih =>
    intro n acc hacc
    unfold natDigitsCore
    by_cases h : n < 10
    · simp [h]
    · rw [if_neg h]
      exact ih (n / 10) _ (by simp)

theorem natDigits_ne_nil (n : Nat) : natDigits n ≠ [] := by
  unfold natDigits natDigitsCore
  by_cases h : n < 10
  · simp [h]
  · rw [if_neg h]
    exact natDigitsCore_ne_nil _ _ _ (by simp)

theorem natDigits_not_ws (n : Nat) : ∀ c ∈ natDigits n, jsIsSpace c = false :=
  natDigitsCore_not_ws (n + 1) n [] (by simp)

theorem pageName_data (i : Nat) :
    (pageName i).data = 'p' :: 'a' :: 'g' :: 'e' :: natDigits i := rfl

theorem pageName_goodToken (i : Nat) : goodToken (pageName i) := by
  rw [goodToken, pageName_data]
  refine ⟨by simp, ?_⟩
  intro c hc
  rcases List.mem_cons.mp hc with rfl | hc; · decide
  rcases List.mem_cons.mp hc with rfl | hc; · decide
  rcases List.mem_cons.mp hc with rfl | hc; · decide
  rcases List.mem_cons.mp hc with rfl | hc; · decide
  exact natDigits_not_ws i c hc

theorem goodToken_ne_empty {s : String} (h : goodToken s) : s ≠ "" := by
  intro he
  rw [he] at h
  exact h.1 rfl

theorem goodToken_noWs_ends {s : String} (h : goodToken s) :
    noLeadWs s.data ∧ noTrailWs s.data := by
  obtain ⟨hne, hall⟩ := h
  constructor
  · cases hd : s.data with
    | nil => trivial
    | cons c t =>
      show jsIsSpace c = false
      exact hall c (hd ▸ List.mem_cons_self c t)
  · unfold noTrailWs
    cases hd : s.data.reverse with
    | nil => trivial
    | cons c t =>
      show jsIsSpace c = false
      exact hall c (List.mem_reverse.mp (hd ▸ List.mem_cons_self c t))

theorem nlJoin_data_cons (s t : String) (rest : List String) :
    (nlJoin (s :: t :: rest)).data = s.data ++ '\n' :: (nlJoin (t :: rest)).data := by
  show ((s ++ "\n") ++ nlJoin (t :: rest)).data = _
  rw [String.data_append, String.data_append, List.append_assoc]
  rfl

/-- A newline-join of good tokens is non-empty and has non-whitespace first
and last characters (the `"\n"` separators are strictly internal). -/
theorem nlJoin_props : ∀ ts : List String, ts ≠ [] → (∀ s ∈ ts, goodToken s) →
    (nlJoin ts).data ≠ [] ∧ noLeadWs (nlJoin ts).data ∧ noTrailWs (nlJoin ts).data := by
  intro ts
  induction ts with
  | nil => intro h; exact absurd rfl h
  | cons s rest ih =>
    intro _ hgood
    have hs : goodToken s := hgood s (List.mem_cons_self ..)
    cases rest with
    | nil =>
      obtain ⟨h1, h2⟩ := goodToken_noWs_ends hs
      exact ⟨hs.1, h1, h2⟩
    | cons t rest2 =>
      obtain ⟨ihne, ihlead, ihtrail⟩ := ih (by simp)
        (fun x hx => hgood x (List.mem_cons_of_mem _ hx))
      rw [nlJoin_data_cons]
      refine ⟨by simp [hs.1], ?_, ?_⟩
      · cases hd : s.data with
        | nil => exact absurd hd hs.1
        | cons c cs =>
          show jsIsSpace c = false
          exact hs.2 c (hd ▸ List.mem_cons_self c cs)
      · unfold noTrailWs
        rw [List.reverse_append, List.reverse_cons]
        cases hX : (nlJoin (t :: rest2)).data.reverse with
        | nil => exact absurd (by simpa using hX) ihne
        | cons c cs =>
          show jsIsSpace c = false
          have : noLeadWs (c :: cs) := hX ▸ ihtrail
          exact this

theorem ocrFold_wrap : ∀ (ts : List String) (acc : String),
    (∀ t ∈ ts, t ≠ "") →
    (ts.map (fun t => some (some t))).foldl ocrFoldStep acc = acc ++ concatNL ts := by
  intro ts
  induction ts with
  | nil =>
    intro acc _
    show acc = acc ++ ""
    rw [String.append_empty]
  | cons t rest ih =>
    intro acc hall
    have ht : t ≠ "" := hall t (List.mem_cons_self ..)
    have hstep : ocrFoldStep acc (some (some t)) = (acc ++ t) ++ "\n" := by
      unfold ocrFoldStep recognizeImageBuffer
      simp [ht]
    show List.foldl ocrFoldStep (ocrFoldStep acc (some (some t))) _ = _
    rw [hstep, ih _ (fun x hx => hall x (List.mem_cons_of_mem _ hx))]
    show ((acc ++ t) ++ "\n") ++ concatNL rest = acc ++ ((t ++ "\n") ++ concatNL rest)
    simp [String.append_assoc]

theorem concatNL_eq_nlJoin : ∀ ts : List String, ts ≠ [] →
    concatNL ts = nlJoin ts ++ "\n" := by
  intro ts
  induction ts with
  | nil => intro h; exact absurd rfl h
  | cons t rest ih =>
    intro _
    cases rest with
    | nil =>
      show (t ++ "\n") ++ "" = t ++ "\n"
      rw [String.append_empty]
    | cons u rest2 =>
      show (t ++ "\n") ++ concatNL (u :: rest2) = ((t ++ "\n") ++ nlJoin (u :: rest2)) ++ "\n"
      rw [ih (by simp)]
      simp [String.append_assoc]

/-- `ocrPdfBuffer` on a non-empty list of pages all recognised as good tokens
returns exactly their newline-join, in page order. -/
theorem ocrPdfBuffer_pages (ts : List String) (hne : ts ≠ [])
    (hgood : ∀ t ∈ ts, goodToken t) :
    ocrPdfBuffer (some (ts.map (fun t => some (some t)))) = nlJoin ts := by
  obtain ⟨hdne, hlead, htrail⟩ := nlJoin_props ts hne hgood
  have hts : ∀ t ∈ ts, t ≠ "" := fun t h => goodToken_ne_empty (hgood t h)
  have hlen : ((ts.map (fun t => some (some t))).length == 0) = false := by
    simp only [List.length_map]
    cases ts with
    | nil => exact absurd rfl hne
    | cons a l => simp
  show (if ((ts.map (fun t => some (some t))).length == 0) = true then ""
        else jsTrim (List.foldl ocrFoldStep "" (ts.map (fun t => some (some t))))) =
      nlJoin ts
  rw [hlen]
  simp only [Bool.false_eq_true, if_false]
  rw [ocrFold_wrap ts "" hts, String.empty_append, concatNL_eq_nlJoin ts hne]
  apply String.ext
  show trimChars ((nlJoin ts ++ "\n").data) = (nlJoin ts).data
  rw [String.data_append]
  exact trimChars_append_newline hdne hlead htrail

/-- C4: for a PDF whose trimmed native text has length below 20 and whose
rasterizer yields `n ≥ 1` pages with OCR recognising page `i` as `"page{i}"`,
the final extracted text is `"page0\npage1\n...\npage{n-1}"` — pages are
concatenated with a newline separator in page-index order. -/
theorem pdf_ocr_page_order : ∀ (f : FileEnv) (n : Nat), 1 ≤ n →
    containsStr (asciiLower f.mimetype) "pdf" = true →
    (jsTrim (f.pdfNative.getD "")).length < 20 →
    f.pdfPages = some ((List.range n).map (fun i => some (some (pageName i)))) →
    importFromFileText f = .ok (nlJoin ((List.range n).map pageName)) := by
  intro f n hn hmime hlt hpages
  have hmap : (List.range n).map (fun i => some (some (pageName i))) =
      ((List.range n).map pageName).map (fun t => some (some t)) := by
    rw [List.map_map]
    rfl
  have htsne : (List.range n).map pageName ≠ [] := by
    simp only [ne_eq, List.map_eq_nil_iff, List.range_eq_nil]
    omega
  have htsgood : ∀ t ∈ (List.range n).map pageName, goodToken t := by
    intro t ht
    simp only [List.mem_map] at ht
    obtain ⟨i, _, rfl⟩ := ht
    exact pageName_goodToken i
  have hocr : ocrPdfBuffer f.pdfPages = nlJoin ((List.range n).map pageName) := by
    rw [hpages, hmap]
    exact ocrPdfBuffer_pages _ htsne htsgood
  obtain ⟨hdne, hlead, htrail⟩ := nlJoin_props _ htsne htsgood
  have hne' : nlJoin ((List.range n).map pageName) ≠ "" := by
    intro h
    rw [h] at hdne
    exact hdne rfl
  have hresult : (extractStep f).result =
      .ok (nlJoin ((List.range n).map pageName)) := by
    rw [extractStep_pdf_fallback hmime hlt]
    simp only [hocr]
    simp [hne']
  have htrim : jsTrim (nlJoin ((List.range n).map pageName)) =
      nlJoin ((List.range n).map pageName) :=
    String.ext (trimChars_eq_self hlead htrail)
  unfold importFromFileText
  rw [hresult]
  simp [htrim, hne']

/-- Witness for C4: three pages recognised as `page0`, `page1`, `page2` yield
`"page0\npage1\npage2"`. -/
theorem pdf_ocr_page_order_witness :
    importFromFileText ⟨"application/pdf", "scan.pdf", some "",
        some ((List.range 3).map (fun i => some (some (pageName i)))), none, none⟩ =
      .ok "page0\npage1\npage2" := by
  rw [pdf_ocr_page_order _ 3 (by omega) (by decide) (by decide) rfl]
  decide

/-! ## Claim theorems: the name rule (C5)

The code counts tokens with `candidate.split(/\s+/).length`; the claim counts
"whitespace-separated tokens".  For a trimmed non-empty candidate the two
agree, which the following lemmas establish. -/

/-- Processing a run of non-whitespace characters accumulates them into the
current segment and leaves separator mode. -/
theorem splitWsAux_token : ∀ (t rest acc : List Char) (inSep : Bool), t ≠ [] →
    (∀ c ∈ t, jsIsSpace c = false) →
    splitWsAux (t ++ rest) acc inSep = splitWsAux rest (t.reverse ++ acc) false := by
  intro t
  induction t with
  | nil => intro rest acc inSep h; exact absurd rfl h
  | cons c t' ih =>
    intro rest acc inSep _ hall
    have hc : jsIsSpace c = false := hall c (List.mem_cons_self ..)
    show splitWsAux (c :: (t' ++ rest)) acc inSep = _
    rw [splitWsAux]
    rw [if_neg (by simp [hc])]
    cases t' with
    | nil => simp
    | cons d t'' =>
      rw [ih rest (c :: acc) false (by simp)
        (fun x hx => hall x (List.mem_cons_of_mem _ hx))]
      simp

/-- In separator mode further whitespace is skipped. -/
theorem splitWsAux_skip : ∀ (run rest acc : List Char),
    (∀ c ∈ run, jsIsSpace c = true) →
    splitWsAux (run ++ rest) acc true = splitWsAux rest acc true := by
  intro run
  induction run with
  | nil => intro rest acc _; rfl
  | cons c run' ih =>
    intro rest acc hall
    have hc : jsIsSpace c = true := hall c (List.mem_cons_self ..)
    show splitWsAux (c :: (run' ++ rest)) acc true = _
    rw [splitWsAux, if_pos (by simp [hc]), if_pos rfl]
    exact ih rest acc (fun x hx => hall x (List.mem_cons_of_mem _ hx))

/-- A whitespace run met outside separator mode emits the current segment. -/
theorem splitWsAux_run : ∀ (run rest acc : List Char), run ≠ [] →
    (∀ c ∈ run, jsIsSpace c = true) →
    splitWsAux (run ++ rest) acc false = acc.reverse :: splitWsAux rest [] true := by
  intro run rest acc hne hall
  cases run with
  | nil => exact absurd rfl hne
  | cons c run' =>
    have hc : jsIsSpace c = true := hall c (List.mem_cons_self ..)
    show splitWsAux (c :: (run' ++ rest)) acc false = _
    rw [splitWsAux, if_pos (by simp [hc]), if_neg (by simp)]
    rw [splitWsAux_skip run' rest [] (fun x hx => hall x (List.mem_cons_of_mem _ hx))]

/-- Separator mode is irrelevant when the next character is not whitespace. -/
theorem splitWsAux_mode {cs : List Char} (h : noLeadWs cs) (acc : List Char) :
    splitWsAux cs acc true = splitWsAux cs acc false := by
  cases cs with
  | nil => rfl
  | cons c t =>
    have hc : jsIsSpace c = false := h
    rw [splitWsAux, splitWsAux, if_neg (by simp [hc]), if_neg (by simp [hc])]

/-- Any sufficient fuel computes the same token list. -/
theorem tokensOfCore_fuel : ∀ (f1 f2 : Nat) (cs : List Char),
    cs.length ≤ f1 → cs.length ≤ f2 → tokensOfCore f1 cs = tokensOfCore f2 cs := by
  intro f1
  induction f1 with
  | zero =>
    intro f2 cs h1 _
    have : cs = [] := List.eq_nil_of_length_eq_zero (by omega)
    subst this
    cases f2 <;> rfl
  | succ f1 ih =>
    intro f2 cs h1 h2
    cases cs with
    | nil => cases f2 <;> rfl
    | cons c rest =>
      cases f2 with
      | zero => simp at h2
      | succ f2 =>
        simp only [List.length_cons] at h1 h2
        simp only [tokensOfCore]
        by_cases hc : jsIsSpace c = true
        · rw [if_pos hc, if_pos hc]
          exact ih f2 rest (by omega) (by omega)
        · rw [if_neg hc, if_neg hc]
          have hd := (List.dropWhile_sublist
            (p := fun d => !jsIsSpace d) (l := rest)).length_le
          rw [ih f2 (rest.dropWhile (fun d => !jsIsSpace d)) (by omega) (by omega)]

/-- The one-step unfolding of `tokensOf`. -/
theorem tokensOf_cons (c : Char) (rest : List Char) :
    tokensOf (c :: rest) = (if jsIsSpace c then tokensOf rest
      else (c :: rest.takeWhile (fun d => !jsIsSpace d)) ::
        tokensOf (rest.dropWhile (fun d => !jsIsSpace d))) := by
  show tokensOfCore (rest.length + 1) (c :: rest) = _
  show (if jsIsSpace c then tokensOfCore rest.length rest
        else (c :: rest.takeWhile (fun d => !jsIsSpace d)) ::
          tokensOfCore rest.length (rest.dropWhile (fun d => !jsIsSpace d))) = _
  have hd := (List.dropWhile_sublist (p := fun d => !jsIsSpace d) (l := rest)).length_le
  by_cases hc : jsIsSpace c = true
  · rw [if_pos hc, if_pos hc]
    rfl
  · rw [if_neg hc, if_neg hc]
    rw [tokensOfCore_fuel rest.length (rest.dropWhile (fun d => !jsIsSpace d)).length
      (rest.dropWhile (fun d => !jsIsSpace d)) (by omega) (by omega)]
    rfl

/-- Leading whitespace contributes no token. -/
theorem tokensOf_ws_prefix : ∀ (run x : List Char), (∀ c ∈ run, jsIsSpace c = true) →
    tokensOf (run ++ x) = tokensOf x := by
  intro run
  induction run with
  | nil => intro x _; rfl
  | cons c run' ih =>
    intro x hall
    have hc : jsIsSpace c = true := hall c (List.mem_cons_self ..)
    show tokensOf (c :: (run' ++ x)) = _
    rw [tokensOf_cons, if_pos hc]
    exact ih x (fun y hy => hall y (List.mem_cons_of_mem _ hy))

/-- Unfolding `tokensOf` at a non-whitespace head. -/
theorem tokensOf_cons_nonws {cs : List Char} (hne : cs ≠ []) (h : noLeadWs cs) :
    tokensOf cs = cs.takeWhile (fun d => !jsIsSpace d) ::
      tokensOf (cs.dropWhile (fun d => !jsIsSpace d)) := by
  cases cs with
  | nil => exact absurd rfl hne
  | cons c tail =>
    have hc : jsIsSpace c = false := h
    rw [tokensOf_cons, if_neg (by simp [hc]),
      List.takeWhile_cons_of_pos (by simp [hc]),
      List.dropWhile_cons_of_pos (by simp [hc])]

/-- `noLeadWs` of an append with a non-empty left part. -/
theorem noLeadWs_append {l r : List Char} (hne : l ≠ []) (h : noLeadWs l) :
    noLeadWs (l ++ r) := by
  cases l with
  | nil => exact absurd rfl hne
  | cons c t => exact h

/-- For a trimmed non-empty string, `split(/\s+/)` produces exactly one segment
per whitespace-separated token. -/
theorem splitWs_length_eq_tokens (cs : List Char) (hne : cs ≠ []) (h1 : noLeadWs cs)
    (h2 : noTrailWs cs) : (splitWsAux cs [] false).length = (tokensOf cs).length := by
  have hsplit := (List.takeWhile_append_dropWhile
    (p := fun d => !jsIsSpace d) (l := cs)).symm
  have ht_all : ∀ c ∈ cs.takeWhile (fun d => !jsIsSpace d), jsIsSpace c = false := by
    intro c hc
    simpa using List.mem_takeWhile_imp hc
  have htne : cs.takeWhile (fun d => !jsIsSpace d) ≠ [] := by
    cases cs with
    | nil => exact absurd rfl hne
    | cons c tail =>
      have hc : jsIsSpace c = false := h1
      rw [List.takeWhile_cons_of_pos (by simp [hc])]
      simp
  rw [tokensOf_cons_nonws hne h1]
  cases hrest : cs.dropWhile (fun d => !jsIsSpace d) with
  | nil =>
    conv_lhs => rw [hsplit, hrest]
    rw [splitWsAux_token _ [] [] false htne ht_all]
    simp [splitWsAux, tokensOf, tokensOfCore]
  | cons r rest' =>
    have hr_ws : jsIsSpace r = true := by
      have hh := List.head?_dropWhile_not (fun d => !jsIsSpace d) cs
      rw [hrest] at hh
      simp only [List.head?_cons] at hh
      simpa using hh
    have hsplit2 := (List.takeWhile_append_dropWhile
      (p := jsIsSpace) (l := r :: rest')).symm
    have hrun_ne : (r :: rest').takeWhile jsIsSpace ≠ [] := by
      rw [List.takeWhile_cons_of_pos hr_ws]
      simp
    have hrun_all : ∀ c ∈ (r :: rest').takeWhile jsIsSpace, jsIsSpace c = true :=
      fun c hc => List.mem_takeWhile_imp hc
    have hcs'_lead : noLeadWs ((r :: rest').dropWhile jsIsSpace) :=
      noLeadWs_dropWhile _
    have hcs'_ne : (r :: rest').dropWhile jsIsSpace ≠ [] := by
      intro hnil
      have hcs_eq : cs = cs.takeWhile (fun d => !jsIsSpace d) ++
          (r :: rest').takeWhile jsIsSpace := by
        conv_lhs => rw [hsplit]
        rw [hrest]
        conv_lhs => rw [hsplit2]
        rw [hnil, List.append_nil]
      have hrev : noLeadWs (((r :: rest').takeWhile jsIsSpace).reverse ++
          (cs.takeWhile (fun d => !jsIsSpace d)).reverse) := by
        have h2' := h2
        unfold noTrailWs at h2'
        rw [hcs_eq, List.reverse_append] at h2'
        exact h2'
      cases hq : ((r :: rest').takeWhile jsIsSpace).reverse with
      | nil => exact hrun_ne (by simpa using hq)
      | cons q qs =>
        rw [hq] at hrev
        have hq_mem : q ∈ (r :: rest').takeWhile jsIsSpace :=
          List.mem_reverse.mp (hq ▸ List.mem_cons_self ..)
        have hfalse : jsIsSpace q = false := hrev
        rw [hrun_all q hq_mem] at hfalse
        cases hfalse
    have hcs'_trail : noTrailWs ((r :: rest').dropWhile jsIsSpace) := by
      unfold noTrailWs
      have hcs_eq : cs = (cs.takeWhile (fun d => !jsIsSpace d) ++
          (r :: rest').takeWhile jsIsSpace) ++ (r :: rest').dropWhile jsIsSpace := by
        conv_lhs => rw [hsplit]
        rw [hrest]
        conv_lhs => rw [hsplit2]
        rw [List.append_assoc]
      have h2' := h2
      unfold noTrailWs at h2'
      rw [hcs_eq, List.reverse_append] at h2'
      cases hq : ((r :: rest').dropWhile jsIsSpace).reverse with
      | nil => trivial
      | cons q qs =>
        rw [hq] at h2'
        exact h2'
    have hL : splitWsAux cs [] false =
        cs.takeWhile (fun d => !jsIsSpace d) ::
          splitWsAux ((r :: rest').dropWhile jsIsSpace) [] false := by
      conv_lhs => rw [hsplit]
      rw [hrest]
      conv_lhs => rw [hsplit2]
      rw [splitWsAux_token _ _ [] false htne ht_all,
        splitWsAux_run _ _ _ hrun_ne hrun_all,
        splitWsAux_mode hcs'_lead]
      simp
    rw [hL]
    simp only [List.length_cons]
    have hrec := splitWs_length_eq_tokens ((r :: rest').dropWhile jsIsSpace)
      hcs'_ne hcs'_lead hcs'_trail
    rw [hrec]
    have htok : tokensOf (r :: rest') =
        tokensOf ((r :: rest').dropWhile jsIsSpace) := by
      conv_lhs => rw [hsplit2]
      exact tokensOf_ws_prefix _ _ hrun_all
    rw [htok]
termination_by cs.length
decreasing_by
  have e1 : (r :: rest').dropWhile jsIsSpace = rest'.dropWhile jsIsSpace :=
    List.dropWhile_cons_of_pos hr_ws
  have e2 := (List.dropWhile_sublist (p := jsIsSpace) (l := rest')).length_le
  have e3 := (List.dropWhile_sublist (p := fun d => !jsIsSpace d) (l := cs)).length_le
  rw [hrest] at e3
  simp only [e1, List.length_cons] at *
  omega

/-- A member of `linesOf` is a trimmed, non-empty line. -/
theorem linesOf_mem {text s : String} (h : s ∈ linesOf text) :
    (∃ l, s = jsTrim l) ∧ s ≠ "" := by
  unfold linesOf at h
  simp only [List.mem_filter, List.mem_map, bne_iff_ne, ne_eq] at h
  obtain ⟨⟨l, _, rfl⟩, hne⟩ := h
  exact ⟨⟨l, rfl⟩, hne⟩

theorem str_ne_empty_data {s : String} (h : s ≠ "") : s.data ≠ [] := by
  intro hd
  exact h (String.ext (by rw [hd]))

/-- Counterexample to C5 as stated: the claim predicts
`parse("JOHN SMITH - RESUME\n...")` yields `name = undefined`, but the
accepted character class `[A-Za-z ,.'-]` contains both the space and the
hyphen, and the line splits into 4 whitespace-separated tokens, so the code
accepts it as the name. -/
theorem name_dash_counterexample :
    (parse "JOHN SMITH - RESUME\n...").name = some "JOHN SMITH - RESUME" ∧
    (parse "JOHN SMITH - RESUME\n...").name ≠ none :=
  ⟨by decide, by decide⟩

/-- C5 amended: `parse` sets `name` to the first non-empty trimmed line
exactly when that line consists solely of letters, spaces and the characters
`,.'-`, has length 2-80, and has at most 5 whitespace-separated tokens;
otherwise `name` is absent.  `parse("John Smith\nSoftware Engineer")` yields
`name = "John Smith"`, and `parse("JOHN SMITH - RESUME\n...")` yields
`name = "JOHN SMITH - RESUME"` (the hyphen is inside the accepted class). -/
theorem name_rule :
    (∀ text : String, (parse text).name =
      (match (linesOf text).head? with
       | some cand => if claimNameOk cand then some cand else none
       | none => none)) ∧
    (parse "John Smith\nSoftware Engineer").name = some "John Smith" ∧
    (parse "JOHN SMITH - RESUME\n...").name = some "JOHN SMITH - RESUME" := by
  refine ⟨?_, by decide, by decide⟩
  intro text
  have hname : (parse text).name =
      (match linesOf text with
       | [] => none
       | candidate :: _ =>
         if nameRegexTest candidate && decide ((jsSplitWs candidate).length ≤ 5) then
           some candidate
         else none) := rfl
  rw [hname]
  cases hl : linesOf text with
  | nil => rfl
  | cons cand rest =>
    have hmem : cand ∈ linesOf text := by
      rw [hl]
      exact List.mem_cons_self ..
    obtain ⟨⟨l, hTl⟩, hne⟩ := linesOf_mem hmem
    have hdata : cand.data = trimChars l.data := by rw [hTl]; rfl
    have hlead : noLeadWs cand.data := by rw [hdata]; exact noLeadWs_trimChars _
    have htrail : noTrailWs cand.data := by rw [hdata]; exact noTrailWs_trimChars _
    have hdne : cand.data ≠ [] := str_ne_empty_data hne
    have hcount : (jsSplitWs cand).length = (tokensOf cand.data).length := by
      unfold jsSplitWs
      rw [List.length_map]
      exact splitWs_length_eq_tokens cand.data hdne hlead htrail
    have hbool : (nameRegexTest cand && decide ((jsSplitWs cand).length ≤ 5)) =
        claimNameOk cand := by
      unfold nameRegexTest claimNameOk
      rw [hcount]
    show (if nameRegexTest cand && decide ((jsSplitWs cand).length ≤ 5) then
        some cand else none) = (if claimNameOk cand then some cand else none)
    rw [hbool]

end ReactiveResume
